import Mathlib

/-!
Verification of the playback-queue state machine of the minim terminal
audio player (src/player.rs, src/track.rs), with a spec-modelled view of
the incremental search engine (the matcher itself lives in the external
nucleo crate).

Conventions of the embedding:
* Rust `usize` indices become `Nat`.
* The rodio `Sink` is modelled by the list of appended sources, each
  identified by the `Track` it was decoded from; `Sink::empty()` is
  `sink = []`, `Sink::stop()` sets `sink := []`, `Sink::append` pushes.
* A Rust panic (an `expect` on `File::open`, `Vec::insert` / `Vec::remove`
  out of range) and a deadlock (a re-entrant lock of a non-reentrant
  `std::sync::Mutex`, after which the operation never completes) are both
  modelled by the operation returning `none`: no post-state is observable.
* The result of `rodio::Decoder::try_from` for a given file is a
  parameter `dec : Track → DecodeResult` of every operation.
-/

namespace Minim

/-- Track metadata, from src/track.rs: a path plus cached optional tag
fields; the Rust `Eq` instance compares by path only. -/
structure Track where
  path : String
  title : Option String
  artist : Option String
  album : Option String
  duration : Nat
  deriving DecidableEq, Repr

/-- Repeat policy, from `enum RepeatMode` in src/player.rs. -/
inductive RepeatMode where
  | off
  | queue
  | single
  deriving DecidableEq, Repr

/-- Outcome of trying to open and decode a track's file in
`Model::play_track`: `ok` means `rodio::Decoder::try_from` succeeded,
`unplayable` means it returned `Err` (the body of the `if let Ok` is
skipped), `unopenable` means `fs::File::open` failed, in which case the
`expect` call panics. -/
inductive DecodeResult where
  | ok
  | unplayable
  | unopenable
  deriving DecidableEq, Repr

/-- The shared playback state, from `struct PlaybackState` in
src/player.rs: the queue of tracks, the cursor (`queue_index`), the
insertion offset for queue-next, the repeat mode (from
`PlayerSettings`), and the sink contents. -/
structure PlaybackState where
  queue : List Track
  queue_index : Nat
  insertion_offset : Nat
  repeat_mode : RepeatMode
  sink : List Track
  deriving DecidableEq, Repr

/-- Embedding of `Model::play_track`: open the file (panic if that
fails), and if the decoder succeeds, reset `insertion_offset` to 0 and
append the wrapped source to the sink; if decoding fails nothing at all
happens. -/
def play_track (dec : Track → DecodeResult) (t : Track) (s : PlaybackState) :
    Option PlaybackState :=
  match dec t with
  | .unopenable => none
  | .unplayable => some s
  | .ok => some { s with insertion_offset := 0, sink := s.sink ++ [t] }

/-- Behavior of `Model::play_track` when the caller still holds the
`insertion_offset` `MutexGuard`, as the `Message::QueueTrackNext`
handler does: player.rs:336 binds that guard with `let`, so it lives to
the end of the handler block and is still held across the `play_track`
call at player.rs:347.  An open failure still panics; a decode failure
still returns without touching anything (the `if let Ok` body is
skipped); but a successful decode re-locks the same non-reentrant
`insertion_offset` mutex at player.rs:437 and never returns, so the
operation never completes. -/
def play_track_holding_offset (dec : Track → DecodeResult) (t : Track)
    (s : PlaybackState) : Option PlaybackState :=
  match dec t with
  | .unopenable => none
  | .unplayable => some s
  | .ok => none

/-- Cursor update performed by the `on_track_end` closure inside
`Model::play_track` (the completion signal): increment in Off mode,
increment with wrap in Queue mode, unchanged in Single mode. -/
def track_end_advance (s : PlaybackState) : Nat :=
  match s.repeat_mode with
  | .off => s.queue_index + 1
  | .queue =>
      if s.queue_index + 1 ≥ s.queue.length then 0 else s.queue_index + 1
  | .single => s.queue_index

/-- The completion signal: the exhausted source leaves the sink, the
`on_track_end` closure updates the cursor per the repeat mode and, if a
track sits at the new cursor, plays it. -/
def track_end_event (dec : Track → DecodeResult) (s : PlaybackState) :
    Option PlaybackState :=
  let s0 : PlaybackState := { s with sink := s.sink.tail }
  let qi := track_end_advance s0
  let s1 : PlaybackState := { s0 with queue_index := qi }
  match s1.queue.get? qi with
  | some t => play_track dec t s1
  | none => some s1

/-- Clamp of the cursor against a queue length, as written twice in
src/player.rs (`if *queue_index > queue.len() { *queue_index = queue.len() }`). -/
def clamp_index (qi len : Nat) : Nat := if qi > len then len else qi

/-- Cursor update of `Model::next_track` (the explicit skip): unlike the
completion signal, Single mode advances just like Off mode. -/
def next_track_advance (s : PlaybackState) : Nat :=
  match s.repeat_mode with
  | .off | .single => s.queue_index + 1
  | .queue =>
      if s.queue_index + 1 ≥ s.queue.length then 0 else s.queue_index + 1

/-- Embedding of `Model::next_track`: stop the sink, advance the cursor
(Single behaves like Off), clamp it to the queue length, and play the
track now at the cursor if there is one. -/
def next_track (dec : Track → DecodeResult) (s : PlaybackState) :
    Option PlaybackState :=
  let s0 : PlaybackState := { s with sink := [] }
  let qi := clamp_index (next_track_advance s0) s0.queue.length
  let s1 : PlaybackState := { s0 with queue_index := qi }
  match s1.queue.get? qi with
  | some t => play_track dec t s1
  | none => some s1

/-- Embedding of `Model::previous_track`: stop the sink, decrement the
cursor (floor at 0), and play the track at the new cursor if any. -/
def previous_track (dec : Track → DecodeResult) (s : PlaybackState) :
    Option PlaybackState :=
  let s0 : PlaybackState := { s with sink := [] }
  let qi := if s0.queue_index > 0 then s0.queue_index - 1 else s0.queue_index
  let s1 : PlaybackState := { s0 with queue_index := qi }
  match s1.queue.get? qi with
  | some t => play_track dec t s1
  | none => some s1

/-- Embedding of `Model::queue_track`: push the track at the end of the
queue; does not touch the sink. -/
def queue_track (t : Track) (s : PlaybackState) : PlaybackState :=
  { s with queue := s.queue ++ [t] }

/-- Embedding of the `Message::QueueTrack` handler in `Model::update`:
enqueue, then start playback of the enqueued track if the sink is empty. -/
def handle_queue_track (dec : Track → DecodeResult) (t : Track)
    (s : PlaybackState) : Option PlaybackState :=
  let s1 := queue_track t s
  if s1.sink.isEmpty then play_track dec t s1 else some s1

/-- Embedding of the `Message::QueueTrackNext` handler in
`Model::update`: increment `insertion_offset`, insert the track at
`queue_index + insertion_offset` (with the already-incremented offset;
`Vec::insert` panics if that position exceeds the queue length), then,
if the sink is empty, try to start playback of the inserted track —
while still holding the `insertion_offset` guard, so a decodable track
deadlocks on the re-entrant lock (see `play_track_holding_offset`). -/
def handle_queue_track_next (dec : Track → DecodeResult) (t : Track)
    (s : PlaybackState) : Option PlaybackState :=
  let index := s.queue_index
  let offset := s.insertion_offset + 1
  if index + offset ≤ s.queue.length then
    let s1 : PlaybackState := { s with
      insertion_offset := offset,
      queue := s.queue.insertIdx (index + offset) t }
    if s1.sink.isEmpty then play_track_holding_offset dec t s1 else some s1
  else
    none

/-- Embedding of `Model::remove_track`: if the removed index is the
cursor, first perform `next_track`; then decrement the cursor if the
removed index is below it, remove the entry (`Vec::remove` panics if the
index is out of range), and clamp the cursor to the new length. -/
def remove_track (dec : Track → DecodeResult) (index : Nat)
    (s : PlaybackState) : Option PlaybackState :=
  let step1 : Option PlaybackState :=
    if index = s.queue_index then next_track dec s else some s
  match step1 with
  | none => none
  | some s1 =>
    let qi := if index < s1.queue_index then s1.queue_index - 1 else s1.queue_index
    if index < s1.queue.length then
      let q := s1.queue.eraseIdx index
      some { s1 with queue := q, queue_index := clamp_index qi q.length }
    else
      none

/-- Embedding of `Model::now_playing`: the queue entry at the cursor. -/
def now_playing (s : PlaybackState) : Option Track :=
  s.queue.get? s.queue_index

/-- Iterated application of a fallible transition, used to state
properties about N successive completions or skips. -/
def iter_opt (f : PlaybackState → Option PlaybackState) :
    Nat → PlaybackState → Option PlaybackState
  | 0, s => some s
  | n + 1, s =>
    match f s with
    | none => none
    | some s1 => iter_opt f n s1

/-- One transition of the queue, as fired by the UI loop or by the
completion callback.  A completion can only fire while a source is
actually in the sink; every other transition is a UI command. -/
inductive Step (dec : Track → DecodeResult) :
    PlaybackState → PlaybackState → Prop where
  | enqueue (t : Track) (s s' : PlaybackState) :
      handle_queue_track dec t s = some s' → Step dec s s'
  | enqueueNext (t : Track) (s s' : PlaybackState) :
      handle_queue_track_next dec t s = some s' → Step dec s s'
  | completion (s s' : PlaybackState) :
      s.sink ≠ [] → track_end_event dec s = some s' → Step dec s s'
  | skip (s s' : PlaybackState) :
      next_track dec s = some s' → Step dec s s'
  | previous (s s' : PlaybackState) :
      previous_track dec s = some s' → Step dec s s'
  | remove (i : Nat) (s s' : PlaybackState) :
      remove_track dec i s = some s' → Step dec s s'

/-- Reachability under any finite sequence of queue transitions. -/
def Reachable (dec : Track → DecodeResult) :
    PlaybackState → PlaybackState → Prop :=
  Relation.ReflTransGen (Step dec)

/-- The cursor-bound invariant of the spec: the cursor never exceeds the
queue length. -/
def CursorInv (s : PlaybackState) : Prop :=
  s.queue_index ≤ s.queue.length

/-- The sink holds at most one source at a time. -/
def SinkInv (s : PlaybackState) : Prop :=
  s.sink.length ≤ 1

/-- In repeat-off mode, whenever a source is playing, the cursor points
at an actual queue entry (it is only after an exhausting completion that
the cursor may sit at the queue length, and then nothing plays). -/
def OffPlayingInv (s : PlaybackState) : Prop :=
  s.repeat_mode = .off → s.sink ≠ [] → s.queue_index < s.queue.length

/-- Conjunction of the playback invariants; it holds of the initial
empty state and is preserved by every transition. -/
def Inv (s : PlaybackState) : Prop :=
  CursorInv s ∧ SinkInv s ∧ OffPlayingInv s

instance (s : PlaybackState) : Decidable (CursorInv s) := by
  unfold CursorInv; infer_instance

instance (s : PlaybackState) : Decidable (SinkInv s) := by
  unfold SinkInv; infer_instance

instance (s : PlaybackState) : Decidable (OffPlayingInv s) := by
  unfold OffPlayingInv; infer_instance

instance (s : PlaybackState) : Decidable (Inv s) := by
  unfold Inv; infer_instance

/-- The initial playback state, from `PlaybackState::new`. -/
def initial_state : PlaybackState :=
  { queue := [], queue_index := 0, insertion_offset := 0,
    repeat_mode := .off, sink := [] }

/-- Modelled from the spec: the incremental fuzzy matcher behind the
player's search (the nucleo crate) is not part of this repository, only
its driver `Player::on_tick` is.  Per spec section 4.3, the engine keeps
a pattern, a backlog of items whose matching work has not yet been done,
and a snapshot of the matches found so far; `results` is refreshed from
the snapshot. -/
structure SearchState where
  pattern : String
  pending : List Track
  snapshot : List Track
  results : List Track
  deriving DecidableEq, Repr

/-- Modelled from the spec: `poll()` "advances the internal incremental
matching computation by a bounded work quantum and refreshes `results`
from the current match snapshot" (spec section 4.3; the driver is
`Player::on_tick`, which calls `matcher.tick(10)` and copies the
snapshot into `results`).  The work quantum is a parameter, and so is
the matching predicate, which the spec leaves open. -/
def poll (m : String → Track → Bool) (quantum : Nat) (e : SearchState) :
    SearchState :=
  let work := e.pending.take quantum
  let found := work.filter (m e.pattern)
  let snap := e.snapshot ++ found
  { e with pending := e.pending.drop quantum, snapshot := snap, results := snap }

/-- Read-only view of the current ranked result list. -/
def search_results (e : SearchState) : List Track := e.results

/-- Concrete fixture tracks used by witnesses and counterexamples. -/
def trA : Track := { path := "a.flac", title := some "A", artist := none, album := none, duration := 100 }

/-- Second fixture track. -/
def trB : Track := { path := "b.flac", title := some "B", artist := none, album := none, duration := 200 }

/-- Third fixture track. -/
def trC : Track := { path := "c.flac", title := some "C", artist := none, album := none, duration := 300 }

/-- Fixture track used as the queue-next insertion in scenarios. -/
def trX : Track := { path := "x.flac", title := some "X", artist := none, album := none, duration := 50 }

/-- Decoder in which every file opens and decodes fine. -/
def allOk : Track → DecodeResult := fun _ => DecodeResult.ok

/-- Decoder in which the file of `trA` is unsupported (decoding fails)
and everything else is fine. -/
def decAbad : Track → DecodeResult :=
  fun t => if t.path = "a.flac" then DecodeResult.unplayable else DecodeResult.ok

/-- Matching predicate that accepts everything; used to exercise the
spec-modelled search engine on concrete inputs. -/
def matchAll : String → Track → Bool := fun _ _ => true

/-- Three-track queue in Single mode with the first track playing. -/
def singleState : PlaybackState :=
  { queue := [trA, trB, trC], queue_index := 0, insertion_offset := 0,
    repeat_mode := .single, sink := [trA] }

/-- Result of two explicit skips from `singleState`. -/
def singleSkipped : PlaybackState :=
  { queue := [trA, trB, trC], queue_index := 2, insertion_offset := 0,
    repeat_mode := .single, sink := [trC] }

/-- An exhausted queue in Off mode (cursor = length, a legal state per
the spec) on which a completion signal fires. -/
def exhaustedState : PlaybackState :=
  { queue := [trA], queue_index := 1, insertion_offset := 0,
    repeat_mode := .off, sink := [trA] }

/-- What the completion signal produces from `exhaustedState`: the
cursor has moved to 2, strictly beyond the queue length 1. -/
def exhaustedResult : PlaybackState :=
  { queue := [trA], queue_index := 2, insertion_offset := 0,
    repeat_mode := .off, sink := [] }

/-- State after enqueuing `trA` into the initial empty state. -/
def afterFirstEnqueue : PlaybackState :=
  { queue := [trA], queue_index := 0, insertion_offset := 0,
    repeat_mode := .off, sink := [trA] }

/-- State left after enqueuing the undecodable `trA` into the empty
queue: the cursor points at the failed entry and nothing is playing. -/
def stuckState : PlaybackState :=
  { queue := [trA], queue_index := 0, insertion_offset := 0,
    repeat_mode := .off, sink := [] }

/-- One-track queue with its track playing, used for removal calls. -/
def oneTrackPlaying : PlaybackState :=
  { queue := [trA], queue_index := 0, insertion_offset := 0,
    repeat_mode := .off, sink := [trA] }

/-- One-track queue with nothing playing and a zero insertion offset. -/
def idleOneTrack : PlaybackState :=
  { queue := [trA], queue_index := 0, insertion_offset := 0,
    repeat_mode := .off, sink := [] }

/-- One-track queue with nothing playing but a positive insertion
offset, so a queue-next insertion position lands out of range. -/
def idleOffsetOne : PlaybackState :=
  { queue := [trA], queue_index := 0, insertion_offset := 1,
    repeat_mode := .off, sink := [trA] }

/-- Queue [A,B] with cursor 0 and A playing, the starting point of the
queue-next scenario. -/
def scenarioAB : PlaybackState :=
  { queue := [trA, trB], queue_index := 0, insertion_offset := 0,
    repeat_mode := .off, sink := [trA] }

/-- Queue [A,X,B] right after `enqueue_next(X)` from `scenarioAB`. -/
def scenarioAXB : PlaybackState :=
  { queue := [trA, trX, trB], queue_index := 0, insertion_offset := 1,
    repeat_mode := .off, sink := [trA] }

/-- Queue [A,X,B] after A completes: the cursor is 1 and X plays. -/
def scenarioAXBdone : PlaybackState :=
  { queue := [trA, trX, trB], queue_index := 1, insertion_offset := 0,
    repeat_mode := .off, sink := [trX] }

/-- Queue [A,B,C] in Queue (repeat-all) mode with A playing. -/
def wrapState0 : PlaybackState :=
  { queue := [trA, trB, trC], queue_index := 0, insertion_offset := 0,
    repeat_mode := .queue, sink := [trA] }

/-- After one completion from `wrapState0`. -/
def wrapState1 : PlaybackState :=
  { queue := [trA, trB, trC], queue_index := 1, insertion_offset := 0,
    repeat_mode := .queue, sink := [trB] }

/-- After two completions from `wrapState0`. -/
def wrapState2 : PlaybackState :=
  { queue := [trA, trB, trC], queue_index := 2, insertion_offset := 0,
    repeat_mode := .queue, sink := [trC] }

/-- After three completions from `wrapState0`: the cursor wrapped to 0. -/
def wrapState3 : PlaybackState :=
  { queue := [trA, trB, trC], queue_index := 0, insertion_offset := 0,
    repeat_mode := .queue, sink := [trA] }

/-- Two-track queue with nothing playing and insertion offset 1, used
to show that a queue-next that starts playback resets the offset. -/
def idleTwoOffsetOne : PlaybackState :=
  { queue := [trA, trB], queue_index := 0, insertion_offset := 1,
    repeat_mode := .off, sink := [] }

/-- Search state with an empty pattern and two items still pending. -/
def searchTwoPending : SearchState :=
  { pattern := "", pending := [trA, trB], snapshot := [], results := [] }

/-- The `play_track` call either leaves the state alone (decode
failure) or resets the insertion offset and appends the source. -/
lemma play_track_cases {dec : Track → DecodeResult} {t : Track}
    {s s' : PlaybackState} (h : play_track dec t s = some s') :
    s' = s ∨ s' = { s with insertion_offset := 0, sink := s.sink ++ [t] } := by
  unfold play_track at h
  split at h
  · exact absurd h (by simp)
  · exact Or.inl (Option.some.inj h).symm
  · exact Or.inr (Option.some.inj h).symm

/-- When decoding succeeds, `play_track` resets the offset and appends
the source. -/
lemma play_track_ok {dec : Track → DecodeResult} {t : Track}
    (s : PlaybackState) (h : dec t = DecodeResult.ok) :
    play_track dec t s =
      some { s with insertion_offset := 0, sink := s.sink ++ [t] } := by
  simp [play_track, h]

/-- The cursor clamp is just a minimum. -/
lemma clamp_index_eq_min (qi len : Nat) : clamp_index qi len = min qi len := by
  unfold clamp_index; split <;> omega

/-- Shape of a successful completion event: the queue and repeat mode
are untouched, the cursor moves per `track_end_advance`, and the sink
either just loses the exhausted source or additionally gains the entry
now at the cursor, which then exists. -/
lemma track_end_shape {dec : Track → DecodeResult} {s s' : PlaybackState}
    (h : track_end_event dec s = some s') :
    s'.queue = s.queue ∧ s'.repeat_mode = s.repeat_mode ∧
    s'.queue_index = track_end_advance s ∧
    (s'.sink = s.sink.tail ∨
      ((∃ t, s'.sink = s.sink.tail ++ [t]) ∧ s'.queue_index < s.queue.length)) := by
  unfold track_end_event at h
  dsimp only at h
  split at h
  case h_1 t heq =>
    rcases play_track_cases h with rfl | rfl
    · exact ⟨rfl, rfl, rfl, Or.inl rfl⟩
    · refine ⟨rfl, rfl, rfl, Or.inr ⟨⟨t, rfl⟩, ?_⟩⟩
      obtain ⟨hlt, -⟩ := List.get?_eq_some.mp heq
      exact hlt
  case h_2 heq =>
    obtain rfl := Option.some.inj h
    exact ⟨rfl, rfl, rfl, Or.inl rfl⟩

/-- Shape of a successful explicit skip: the queue and repeat mode are
untouched, the cursor is the clamped `next_track_advance`, and the sink
ends up empty or holding exactly the entry at the new cursor, which
then exists. -/
lemma next_track_shape {dec : Track → DecodeResult} {s s' : PlaybackState}
    (h : next_track dec s = some s') :
    s'.queue = s.queue ∧ s'.repeat_mode = s.repeat_mode ∧
    s'.queue_index = clamp_index (next_track_advance s) s.queue.length ∧
    (s'.sink = [] ∨
      ((∃ t, s'.sink = [t]) ∧ s'.queue_index < s.queue.length)) := by
  unfold next_track at h
  dsimp only at h
  split at h
  case h_1 t heq =>
    rcases play_track_cases h with rfl | rfl
    · exact ⟨rfl, rfl, rfl, Or.inl rfl⟩
    · refine ⟨rfl, rfl, rfl, Or.inr ⟨⟨t, rfl⟩, ?_⟩⟩
      obtain ⟨hlt, -⟩ := List.get?_eq_some.mp heq
      exact hlt
  case h_2 heq =>
    obtain rfl := Option.some.inj h
    exact ⟨rfl, rfl, rfl, Or.inl rfl⟩

/-- Shape of a successful previous-track command. -/
lemma previous_track_shape {dec : Track → DecodeResult} {s s' : PlaybackState}
    (h : previous_track dec s = some s') :
    s'.queue = s.queue ∧ s'.repeat_mode = s.repeat_mode ∧
    s'.queue_index ≤ s.queue_index ∧
    (s'.sink = [] ∨
      ((∃ t, s'.sink = [t]) ∧ s'.queue_index < s.queue.length)) := by
  unfold previous_track at h
  dsimp only at h
  split at h
  case h_1 t heq =>
    rcases play_track_cases h with rfl | rfl
    · refine ⟨rfl, rfl, ?_, Or.inl rfl⟩
      dsimp only; split <;> omega
    · refine ⟨rfl, rfl, ?_, Or.inr ⟨⟨t, rfl⟩, ?_⟩⟩
      · dsimp only; split <;> omega
      · obtain ⟨hlt, -⟩ := List.get?_eq_some.mp heq
        exact hlt
  case h_2 heq =>
    obtain rfl := Option.some.inj h
    refine ⟨rfl, rfl, ?_, Or.inl rfl⟩
    dsimp only; split <;> omega

/-- Shape of a successful plain enqueue: the track is appended, the
cursor, offset bookkeeping target fields and mode stay put, and the
sink is unchanged unless it was empty, in which case it may now hold
exactly the enqueued track. -/
lemma handle_queue_track_shape {dec : Track → DecodeResult} {t : Track}
    {s s' : PlaybackState} (h : handle_queue_track dec t s = some s') :
    s'.queue = s.queue ++ [t] ∧ s'.queue_index = s.queue_index ∧
    s'.repeat_mode = s.repeat_mode ∧
    (s'.sink = s.sink ∨ s'.sink = [t]) := by
  unfold handle_queue_track queue_track at h
  dsimp only at h
  split at h
  case isTrue hemp =>
    rcases play_track_cases h with rfl | rfl
    · exact ⟨rfl, rfl, rfl, Or.inl rfl⟩
    · refine ⟨rfl, rfl, rfl, Or.inr ?_⟩
      have : s.sink = [] := List.isEmpty_iff.mp hemp
      simp [this]
  case isFalse =>
    obtain rfl := Option.some.inj h
    exact ⟨rfl, rfl, rfl, Or.inl rfl⟩

/-- A call of `play_track` made while the caller holds the
`insertion_offset` guard can only return a state when decoding failed,
and then it returns the state unchanged. -/
lemma play_track_holding_offset_eq {dec : Track → DecodeResult} {t : Track}
    {s s' : PlaybackState} (h : play_track_holding_offset dec t s = some s') :
    s' = s := by
  unfold play_track_holding_offset at h
  split at h
  · exact absurd h (by simp)
  · exact (Option.some.inj h).symm
  · exact absurd h (by simp)

/-- Shape of a successful queue-next: the insertion position was in
range, the track is inserted there, the cursor and mode stay put, and
the sink is unchanged (a queue-next that completes never plays: with a
non-empty sink nothing is played, and with an empty sink a decodable
track deadlocks and an undecodable one is a no-op). -/
lemma handle_queue_track_next_shape {dec : Track → DecodeResult} {t : Track}
    {s s' : PlaybackState} (h : handle_queue_track_next dec t s = some s') :
    s.queue_index + (s.insertion_offset + 1) ≤ s.queue.length ∧
    s'.queue = s.queue.insertIdx (s.queue_index + (s.insertion_offset + 1)) t ∧
    s'.queue_index = s.queue_index ∧ s'.repeat_mode = s.repeat_mode ∧
    (s'.sink = s.sink ∨ s'.sink = [t]) := by
  unfold handle_queue_track_next at h
  dsimp only at h
  split at h
  case isTrue hle =>
    refine ⟨hle, ?_⟩
    split at h
    case isTrue hemp =>
      obtain rfl := play_track_holding_offset_eq h
      exact ⟨rfl, rfl, rfl, Or.inl rfl⟩
    case isFalse =>
      obtain rfl := Option.some.inj h
      exact ⟨rfl, rfl, rfl, Or.inl rfl⟩
  case isFalse =>
    exact absurd h (by simp)

/-- A plain enqueue preserves the playback invariants. -/
lemma inv_handle_queue_track {dec : Track → DecodeResult} {t : Track}
    {s s' : PlaybackState} (h : handle_queue_track dec t s = some s')
    (hs : Inv s) : Inv s' := by
  obtain ⟨h1, h2, h3⟩ := hs
  obtain ⟨hq, hqi, hm, hsink⟩ := handle_queue_track_shape h
  unfold Inv CursorInv SinkInv OffPlayingInv at *
  refine ⟨?_, ?_, ?_⟩
  · rw [hq, hqi, List.length_append]; omega
  · rcases hsink with h4 | h4
    · rw [h4]; exact h2
    · rw [h4]; simp
  · intro _ _
    rw [hq, hqi, List.length_append]
    simp only [List.length_cons, List.length_nil]
    omega

/-- A queue-next insertion preserves the playback invariants. -/
lemma inv_handle_queue_track_next {dec : Track → DecodeResult} {t : Track}
    {s s' : PlaybackState} (h : handle_queue_track_next dec t s = some s')
    (hs : Inv s) : Inv s' := by
  obtain ⟨h1, h2, h3⟩ := hs
  obtain ⟨hle, hq, hqi, hm, hsink⟩ := handle_queue_track_next_shape h
  unfold Inv CursorInv SinkInv OffPlayingInv at *
  have hlen : s'.queue.length = s.queue.length + 1 := by
    rw [hq, List.length_insertIdx _ _ hle]
  refine ⟨?_, ?_, ?_⟩
  · rw [hlen, hqi]; omega
  · rcases hsink with h4 | h4
    · rw [h4]; exact h2
    · rw [h4]; simp
  · intro _ _
    rw [hlen, hqi]; omega

/-- A completion signal fired while a source is in the sink preserves
the playback invariants. -/
lemma inv_track_end {dec : Track → DecodeResult} {s s' : PlaybackState}
    (hne : s.sink ≠ []) (h : track_end_event dec s = some s')
    (hs : Inv s) : Inv s' := by
  obtain ⟨h1, h2, h3⟩ := hs
  obtain ⟨hq, hm, hqi, hsink⟩ := track_end_shape h
  unfold Inv CursorInv SinkInv OffPlayingInv at *
  have htail : s.sink.tail.length = s.sink.length - 1 := List.length_tail _
  refine ⟨?_, ?_, ?_⟩
  · rw [hq, hqi]
    cases hmode : s.repeat_mode with
    | off =>
      have := h3 hmode hne
      simp [track_end_advance, hmode]; omega
    | queue =>
      simp only [track_end_advance, hmode]
      split <;> omega
    | single =>
      simp [track_end_advance, hmode]; omega
  · rcases hsink with h4 | ⟨⟨t, h4⟩, -⟩ <;> rw [h4] <;>
      simp [List.length_append] <;> omega
  · intro hoff hne'
    rcases hsink with h4 | ⟨⟨t, h4⟩, hlt⟩
    · exfalso
      apply hne'
      rw [h4]
      have : s.sink.length = 1 := by
        cases hsk : s.sink with
        | nil => exact absurd hsk hne
        | cons a l => simp at h2 ⊢; simpa [hsk] using h2
      rw [← List.length_eq_zero]
      omega
    · rw [hq]; exact hlt

/-- An explicit skip preserves the playback invariants (it does not
even need them: the clamp re-establishes the cursor bound). -/
lemma inv_next_track {dec : Track → DecodeResult} {s s' : PlaybackState}
    (h : next_track dec s = some s') : Inv s' := by
  obtain ⟨hq, hm, hqi, hsink⟩ := next_track_shape h
  unfold Inv CursorInv SinkInv OffPlayingInv
  refine ⟨?_, ?_, ?_⟩
  · rw [hq, hqi, clamp_index_eq_min]; omega
  · rcases hsink with h4 | ⟨⟨t, h4⟩, -⟩ <;> rw [h4] <;> simp
  · intro _ hne'
    rcases hsink with h4 | ⟨⟨t, h4⟩, hlt⟩
    · exact absurd h4 hne'
    · rw [hq]; exact hlt

/-- A previous-track command preserves the playback invariants. -/
lemma inv_previous_track {dec : Track → DecodeResult} {s s' : PlaybackState}
    (h : previous_track dec s = some s') (hs : Inv s) : Inv s' := by
  obtain ⟨h1, h2, h3⟩ := hs
  obtain ⟨hq, hm, hqi, hsink⟩ := previous_track_shape h
  unfold Inv CursorInv SinkInv OffPlayingInv at *
  refine ⟨?_, ?_, ?_⟩
  · rw [hq]; omega
  · rcases hsink with h4 | ⟨⟨t, h4⟩, -⟩ <;> rw [h4] <;> simp
  · intro _ hne'
    rcases hsink with h4 | ⟨⟨t, h4⟩, hlt⟩
    · exact absurd h4 hne'
    · rw [hq]; exact hlt

/-- A removal preserves the playback invariants. -/
lemma inv_remove {dec : Track → DecodeResult} {i : Nat} {s s' : PlaybackState}
    (h : remove_track dec i s = some s') (hs : Inv s) : Inv s' := by
  obtain ⟨h1, h2, h3⟩ := hs
  unfold remove_track at h
  dsimp only at h
  by_cases hie : i = s.queue_index
  · rw [if_pos hie] at h
    cases hnt : next_track dec s with
    | none => rw [hnt] at h; exact absurd h (by simp)
    | some s1 =>
      rw [hnt] at h
      dsimp only at h
      obtain ⟨hq1, hm1, hqi1, hsink1⟩ := next_track_shape hnt
      split at h
      next hlt =>
        obtain rfl := Option.some.inj h
        have hlen : (s1.queue.eraseIdx i).length = s1.queue.length - 1 := by
          rw [List.length_eraseIdx, if_pos hlt]
        unfold Inv CursorInv SinkInv OffPlayingInv
        refine ⟨?_, ?_, ?_⟩
        · dsimp only
          rw [clamp_index_eq_min]; omega
        · dsimp only
          rcases hsink1 with h4 | ⟨⟨t, h4⟩, -⟩ <;> rw [h4] <;> simp
        · dsimp only
          intro hoff hne'
          rcases hsink1 with h4 | ⟨⟨t, h4⟩, hlt1⟩
          · exact absurd h4 hne'
          · have hoff' : s.repeat_mode = .off := hm1 ▸ hoff
            have hadv : next_track_advance s = s.queue_index + 1 := by
              simp [next_track_advance, hoff']
            rw [hadv, clamp_index_eq_min] at hqi1
            rw [hq1] at hlt hlen
            rw [hq1, hlen, clamp_index_eq_min]
            split <;> omega
      next => exact absurd h (by simp)
  · rw [if_neg hie] at h
    dsimp only at h
    split at h
    next hlt =>
      obtain rfl := Option.some.inj h
      have hlen : (s.queue.eraseIdx i).length = s.queue.length - 1 := by
        rw [List.length_eraseIdx, if_pos hlt]
      unfold Inv CursorInv SinkInv OffPlayingInv at *
      refine ⟨?_, ?_, ?_⟩
      · dsimp only
        rw [clamp_index_eq_min]; omega
      · dsimp only; exact h2
      · dsimp only
        intro hoff hne'
        have hc := h3 hoff hne'
        rw [hlen, clamp_index_eq_min]
        split <;> omega
    next => exact absurd h (by simp)

/-- Every queue transition preserves the playback invariants. -/
lemma step_preserves_inv {dec : Track → DecodeResult} {s s' : PlaybackState}
    (h : Step dec s s') (hs : Inv s) : Inv s' := by
  cases h with
  | enqueue t _ _ h => exact inv_handle_queue_track h hs
  | enqueueNext t _ _ h => exact inv_handle_queue_track_next h hs
  | completion _ _ hne h => exact inv_track_end hne h hs
  | skip _ _ h => exact inv_next_track h
  | previous _ _ h => exact inv_previous_track h hs
  | remove i _ _ h => exact inv_remove h hs

/-- The invariants hold at every state reachable from an invariant
state. -/
lemma inv_reachable {dec : Track → DecodeResult} {s s' : PlaybackState}
    (hs : Inv s) (h : Reachable dec s s') : Inv s' := by
  induction h with
  | refl => exact hs
  | tail _ hbc ih => exact step_preserves_inv hbc ih

/-- In Single mode, when the track at the cursor decodes, a completion
replays exactly that track: the queue and cursor are untouched, the
offset resets and the track is appended to the sink again. -/
lemma track_end_single_ok {dec : Track → DecodeResult} {s : PlaybackState}
    {t : Track} (hmode : s.repeat_mode = RepeatMode.single)
    (hdec : dec t = DecodeResult.ok) (hnp : now_playing s = some t) :
    track_end_event dec s =
      some { s with insertion_offset := 0, sink := s.sink.tail ++ [t] } := by
  unfold track_end_event
  dsimp only
  have hadv : track_end_advance { s with sink := s.sink.tail } = s.queue_index := by
    simp [track_end_advance, hmode]
  rw [hadv]
  have hget : ({ s with sink := s.sink.tail, queue_index := s.queue_index } :
      PlaybackState).queue.get? s.queue_index = some t := hnp
  rw [hget]
  dsimp only
  rw [play_track_ok _ hdec]

/-- Iterating the completion signal any number of times in Single mode
succeeds and leaves the queue and cursor untouched. -/
lemma iter_completion_single {dec : Track → DecodeResult}
    (hdec : ∀ u, dec u = DecodeResult.ok) :
    ∀ (N : Nat) (s : PlaybackState) (t : Track),
      s.repeat_mode = RepeatMode.single → now_playing s = some t →
      ∃ s', iter_opt (track_end_event dec) N s = some s' ∧
        s'.queue = s.queue ∧ s'.queue_index = s.queue_index := by
  intro N
  induction N with
  | zero => intro s t _ _; exact ⟨s, rfl, rfl, rfl⟩
  | succ n ih =>
    intro s t hmode hnp
    have h1 := track_end_single_ok hmode (hdec t) hnp
    obtain ⟨s', hiter, hq, hqi⟩ :=
      ih { s with insertion_offset := 0, sink := s.sink.tail ++ [t] } t hmode hnp
    refine ⟨s', ?_, hq, hqi⟩
    simp only [iter_opt]
    rw [h1]
    exact hiter

/-- Iterating the explicit skip in Single mode advances the cursor once
per skip, as long as it stays within the queue. -/
lemma iter_skip_single {dec : Track → DecodeResult}
    (hdec : ∀ u, dec u = DecodeResult.ok) :
    ∀ (N : Nat) (s : PlaybackState), s.repeat_mode = RepeatMode.single →
      s.queue_index + N ≤ s.queue.length →
      ∃ s', iter_opt (next_track dec) N s = some s' ∧
        s'.queue_index = s.queue_index + N := by
  intro N
  induction N with
  | zero => intro s _ _; exact ⟨s, rfl, by omega⟩
  | succ n ih =>
    intro s hmode hle
    have hsome : ∃ s1, next_track dec s = some s1 := by
      unfold next_track
      dsimp only
      split
      · exact ⟨_, play_track_ok _ (hdec _)⟩
      · exact ⟨_, rfl⟩
    obtain ⟨s1, h1⟩ := hsome
    obtain ⟨hq1, hm1, hqi1, -⟩ := next_track_shape h1
    have hadv : next_track_advance s = s.queue_index + 1 := by
      simp [next_track_advance, hmode]
    rw [hadv, clamp_index_eq_min] at hqi1
    have hqi1' : s1.queue_index = s.queue_index + 1 := by omega
    obtain ⟨s', hiter, hqi'⟩ :=
      ih s1 (hm1.trans hmode) (by rw [hq1, hqi1']; omega)
    refine ⟨s', ?_, by omega⟩
    simp only [iter_opt]
    rw [h1]
    exact hiter

/-- C1: in repeat-Single mode the completion signal and the explicit
skip are asymmetric.  N completion signals leave the cursor unchanged
and keep the same track at the cursor (each completion re-appends
exactly that track to the sink, as the third conjunct shows for one
step), while N explicit skips advance the cursor by exactly N
positions, i.e. past N distinct queue slots. -/
theorem single_mode_completion_vs_skip
    (dec : Track → DecodeResult) (s : PlaybackState) (N : Nat) (t : Track)
    (hmode : s.repeat_mode = RepeatMode.single)
    (hdec : ∀ u, dec u = DecodeResult.ok)
    (hnp : now_playing s = some t) :
    (iter_opt (track_end_event dec) N s).map PlaybackState.queue_index =
      some s.queue_index ∧
    (iter_opt (track_end_event dec) N s).map now_playing = some (some t) ∧
    (track_end_event dec s).map PlaybackState.sink =
      some (s.sink.tail ++ [t]) ∧
    (s.queue_index + N ≤ s.queue.length →
      (iter_opt (next_track dec) N s).map PlaybackState.queue_index =
        some (s.queue_index + N)) := by
  obtain ⟨s', hiter, hq, hqi⟩ := iter_completion_single hdec N s t hmode hnp
  have hnp' : now_playing s' = some t := by
    unfold now_playing
    rw [hq, hqi]
    exact hnp
  refine ⟨?_, ?_, ?_, ?_⟩
  · rw [hiter]; simp [hqi]
  · rw [hiter]; simp [hnp']
  · rw [track_end_single_ok hmode (hdec t) hnp]; rfl
  · intro hle
    obtain ⟨s'', hiter2, hqi2⟩ := iter_skip_single hdec N s hmode hle
    rw [hiter2]; simp [hqi2]

/-- Witness for C1 at a concrete three-track Single-mode queue: two
completions leave the state fixed, two skips land on the third track. -/
theorem single_mode_completion_vs_skip_witness :
    (singleState.repeat_mode = RepeatMode.single ∧
      now_playing singleState = some trA ∧
      singleState.queue_index + 2 ≤ singleState.queue.length) ∧
    iter_opt (track_end_event allOk) 2 singleState = some singleState ∧
    iter_opt (next_track allOk) 2 singleState = some singleSkipped ∧
    singleSkipped.queue_index = singleState.queue_index + 2 := by
  refine ⟨⟨rfl, rfl, by decide⟩, by decide, by decide, ?_⟩
  have h := (single_mode_completion_vs_skip allOk singleState 2 trA rfl
      (fun u => rfl) rfl).2.2.2 (by decide)
  rw [show iter_opt (next_track allOk) 2 singleState = some singleSkipped
      from by decide] at h
  simpa using h

/-- C2 counterexample: from the legal exhausted state (cursor = queue
length) in Off mode, a completion signal drives the cursor to
length + 1, so the claimed bound `cursor ≤ entries.length` is violated
by the completion transition itself. -/
theorem cursor_bound_counterexample :
    exhaustedState.queue_index ≤ exhaustedState.queue.length ∧
    track_end_event allOk exhaustedState = some exhaustedResult ∧
    exhaustedResult.queue.length < exhaustedResult.queue_index := by decide

/-- C2 (amended): starting from any state satisfying the playback
invariants (in particular the initial empty state), every finite
sequence of enqueue, queue-next, completion-while-playing, skip,
previous and remove transitions keeps the cursor at most the queue
length; the original claim fails only for a completion signal fired on
an already-exhausted queue in Off mode. -/
theorem cursor_bound_reachable (dec : Track → DecodeResult)
    (s s' : PlaybackState) (hs : Inv s) (h : Reachable dec s s') :
    s'.queue_index ≤ s'.queue.length :=
  (inv_reachable hs h).1

/-- Witness for C2 on a concrete one-step run: enqueuing `trA` into the
initial state reaches `afterFirstEnqueue`, whose cursor is in bounds. -/
theorem cursor_bound_reachable_witness :
    Inv initial_state ∧
    afterFirstEnqueue.queue_index ≤ afterFirstEnqueue.queue.length := by
  refine ⟨by decide, ?_⟩
  exact cursor_bound_reachable allOk initial_state afterFirstEnqueue (by decide)
    (Relation.ReflTransGen.single (Step.enqueue trA _ _ (by decide)))

/-- C3 counterexample: enqueuing the undecodable `trA` into the empty
queue leaves the player without a crash, but the cursor still points at
the failed entry and nothing is playing — the queue does not advance
past the failed entry to any next queueable item. -/
theorem unplayable_no_skip_counterexample :
    decAbad trA = DecodeResult.unplayable ∧
    handle_queue_track decAbad trA initial_state = some stuckState ∧
    now_playing stuckState = some trA ∧ stuckState.sink = [] ∧
    stuckState.queue_index = 0 := by decide

/-- C3 (amended): a decode failure is indeed non-fatal, but it is a
complete no-op — queue, cursor and offset are untouched and nothing is
appended, so the queue does not advance past the failed entry; an open
failure, by contrast, panics (the `expect` call). -/
theorem play_track_failure_behavior (dec : Track → DecodeResult)
    (t : Track) (s : PlaybackState) :
    (dec t = DecodeResult.unplayable → play_track dec t s = some s) ∧
    (dec t = DecodeResult.unopenable → play_track dec t s = none) := by
  constructor <;> intro h <;> simp [play_track, h]

/-- Witness for C3: the undecodable `trA` leaves `stuckState` alone. -/
theorem play_track_failure_behavior_witness :
    decAbad trA = DecodeResult.unplayable ∧
    play_track decAbad trA stuckState = some stuckState :=
  ⟨by decide, (play_track_failure_behavior decAbad trA stuckState).1 (by decide)⟩

/-- C4 counterexample: removing index 5 from a one-track queue does not
leave the state unchanged with a recovered error — `Vec::remove` panics
(modelled as `none`), terminating the program. -/
theorem remove_out_of_range_counterexample :
    oneTrackPlaying.queue.length ≤ 5 ∧
    remove_track allOk 5 oneTrackPlaying = none := by decide

/-- C4 (amended): a removal at any index at or beyond the queue length
panics (`Vec::remove` out of range) instead of being ignored; no
recoverable `IndexOutOfRange` signal exists in the code. -/
theorem remove_out_of_range_panics (dec : Track → DecodeResult) (i : Nat)
    (s : PlaybackState) (h : s.queue.length ≤ i) :
    remove_track dec i s = none := by
  unfold remove_track
  dsimp only
  by_cases hie : i = s.queue_index
  · rw [if_pos hie]
    cases hnt : next_track dec s with
    | none => rfl
    | some s1 =>
      dsimp only
      obtain ⟨hq, -, -, -⟩ := next_track_shape hnt
      rw [if_neg (by rw [hq]; omega)]
  · rw [if_neg hie]
    dsimp only
    rw [if_neg (by omega)]

/-- Witness for C4 at index 7 of a one-track queue. -/
theorem remove_out_of_range_panics_witness :
    oneTrackPlaying.queue.length ≤ 7 ∧
    remove_track allOk 7 oneTrackPlaying = none :=
  ⟨by decide, remove_out_of_range_panics allOk 7 oneTrackPlaying (by decide)⟩

/-- C5 counterexample, two parts.  (i) From `idleOneTrack` (nothing
playing) with the decodable `trB`, the handler holds the
`insertion_offset` guard across `play_track`, which re-locks that
non-reentrant mutex and never returns: the operation never completes
(modelled as `none`), so no inserted entry or incremented offset is
ever observable.  (ii) From `idleOffsetOne` the insertion position 2
exceeds the queue length 1 and `Vec::insert` panics.  Both refute the
unconditional "inserts and increments" claim. -/
theorem enqueue_next_counterexample :
    idleOneTrack.sink = [] ∧ allOk trB = DecodeResult.ok ∧
    handle_queue_track_next allOk trB idleOneTrack = none ∧
    handle_queue_track_next allOk trB idleOffsetOne = none := by decide

/-- C5 (amended): when the insertion position is within bounds and a
track is currently playing, `enqueue_next` inserts the track at
position cursor + insertion_offset + 1 and increments the offset by
one; if nothing is playing and the track decodes, the handler
deadlocks re-locking the `insertion_offset` mutex inside `play_track`
and never completes.  The [A,B] / queue-next X / completion-of-A
scenario holds exactly as stated. -/
theorem enqueue_next_inserts (dec : Track → DecodeResult) (t : Track)
    (s : PlaybackState)
    (hpos : s.queue_index + s.insertion_offset + 1 ≤ s.queue.length) :
    (s.sink ≠ [] → handle_queue_track_next dec t s = some { s with
        insertion_offset := s.insertion_offset + 1,
        queue := s.queue.insertIdx (s.queue_index + s.insertion_offset + 1) t }) ∧
    (s.sink = [] → dec t = DecodeResult.ok →
      handle_queue_track_next dec t s = none) ∧
    handle_queue_track_next allOk trX scenarioAB = some scenarioAXB ∧
    track_end_event allOk scenarioAXB = some scenarioAXBdone ∧
    scenarioAXBdone.queue = [trA, trX, trB] ∧
    scenarioAXBdone.queue_index = 1 ∧
    now_playing scenarioAXBdone = some trX := by
  refine ⟨?_, ?_, by decide, by decide, by decide, by decide, by decide⟩
  · intro hplaying
    unfold handle_queue_track_next
    dsimp only
    rw [if_pos (by omega)]
    rw [if_neg (by simpa [List.isEmpty_iff] using hplaying)]
    rw [← Nat.add_assoc]
  · intro hsink hdec
    unfold handle_queue_track_next
    dsimp only
    rw [if_pos (by omega)]
    rw [if_pos (by simp [hsink])]
    simp [play_track_holding_offset, hdec]

/-- Witness for C5 on the scenario state itself. -/
theorem enqueue_next_inserts_witness :
    (scenarioAB.queue_index + scenarioAB.insertion_offset + 1 ≤
        scenarioAB.queue.length ∧ scenarioAB.sink ≠ []) ∧
    handle_queue_track_next allOk trX scenarioAB = some scenarioAXB := by
  refine ⟨⟨by decide, by decide⟩, ?_⟩
  have h := (enqueue_next_inserts allOk trX scenarioAB (by decide)).1 (by decide)
  rw [h]
  decide

/-- If a file neither fails to open nor to decode in the given decoder,
`play_track` always succeeds. -/
lemma play_track_some_of_not_unopenable {dec : Track → DecodeResult}
    {t : Track} {s : PlaybackState} (h : dec t ≠ DecodeResult.unopenable) :
    ∃ s', play_track dec t s = some s' := by
  unfold play_track
  cases hd : dec t
  case ok => exact ⟨_, rfl⟩
  case unplayable => exact ⟨_, rfl⟩
  case unopenable => exact absurd hd h

/-- A completion signal always succeeds when no file fails to open. -/
lemma track_end_some_of {dec : Track → DecodeResult} {s : PlaybackState}
    (hdec : ∀ u, dec u ≠ DecodeResult.unopenable) :
    ∃ s', track_end_event dec s = some s' := by
  unfold track_end_event
  dsimp only
  split
  · exact play_track_some_of_not_unopenable (hdec _)
  · exact ⟨_, rfl⟩

/-- An explicit skip always succeeds when no file fails to open. -/
lemma next_track_some_of {dec : Track → DecodeResult} {s : PlaybackState}
    (hdec : ∀ u, dec u ≠ DecodeResult.unopenable) :
    ∃ s', next_track dec s = some s' := by
  unfold next_track
  dsimp only
  split
  · exact play_track_some_of_not_unopenable (hdec _)
  · exact ⟨_, rfl⟩

/-- C6: in Queue (repeat-all) mode both advance transitions — the
completion signal and the explicit skip — increment the cursor by one
and wrap it to 0 whenever the incremented value reaches or exceeds the
queue length. -/
theorem queue_mode_advance_wraps (dec : Track → DecodeResult)
    (s : PlaybackState) (hmode : s.repeat_mode = RepeatMode.queue)
    (hdec : ∀ u, dec u ≠ DecodeResult.unopenable) :
    (track_end_event dec s).map PlaybackState.queue_index =
      some (if s.queue_index + 1 ≥ s.queue.length then 0
            else s.queue_index + 1) ∧
    (next_track dec s).map PlaybackState.queue_index =
      some (if s.queue_index + 1 ≥ s.queue.length then 0
            else s.queue_index + 1) := by
  constructor
  · obtain ⟨s', h⟩ := track_end_some_of hdec
    obtain ⟨-, -, hqi, -⟩ := track_end_shape h
    rw [h]
    simp only [Option.map_some']
    rw [hqi]
    simp [track_end_advance, hmode]
  · obtain ⟨s', h⟩ := next_track_some_of hdec
    obtain ⟨-, -, hqi, -⟩ := next_track_shape h
    rw [h]
    simp only [Option.map_some']
    rw [hqi, clamp_index_eq_min]
    simp only [next_track_advance, hmode, Option.some.injEq]
    split <;> omega

/-- Witness for C6: from [A,B,C] at cursor 0 in Queue mode, three
completion signals produce the cursor sequence 1, 2, 0. -/
theorem queue_mode_advance_wraps_witness :
    wrapState0.repeat_mode = RepeatMode.queue ∧
    track_end_event allOk wrapState0 = some wrapState1 ∧
    track_end_event allOk wrapState1 = some wrapState2 ∧
    track_end_event allOk wrapState2 = some wrapState3 ∧
    wrapState1.queue_index = 1 ∧ wrapState2.queue_index = 2 ∧
    wrapState3.queue_index = 0 := by
  refine ⟨rfl, by decide, by decide, by decide, ?_, by decide, by decide⟩
  have h := (queue_mode_advance_wraps allOk wrapState0 rfl
      (fun u hu => DecodeResult.noConfusion hu)).1
  rw [show track_end_event allOk wrapState0 = some wrapState1
      from by decide] at h
  simpa using h

/-- C7: `insertion_offset` is reset to 0 exactly by a successful
`play_track` — the normal track starts via skip, previous, a completion
and the first enqueue — and never by a queue-next.  A completed
queue-next always increments the offset by one, whether a track is
playing (second conjunct) or nothing plays because the inserted file
does not decode (third conjunct); the one queue-next path on which a
track would have started playing (empty sink, decodable file) holds the
`insertion_offset` guard across `play_track`, deadlocks on the
re-entrant lock at player.rs:437 and never completes (fourth conjunct),
so no reset via queue-next is ever observable. -/
theorem insertion_offset_reset_rule (dec : Track → DecodeResult)
    (t : Track) (s : PlaybackState) :
    (dec t = DecodeResult.ok →
      (play_track dec t s).map PlaybackState.insertion_offset = some 0) ∧
    (s.sink ≠ [] → s.queue_index + s.insertion_offset + 1 ≤ s.queue.length →
      (handle_queue_track_next dec t s).map PlaybackState.insertion_offset =
        some (s.insertion_offset + 1)) ∧
    (s.sink = [] → dec t = DecodeResult.unplayable →
      s.queue_index + s.insertion_offset + 1 ≤ s.queue.length →
      (handle_queue_track_next dec t s).map PlaybackState.insertion_offset =
        some (s.insertion_offset + 1)) ∧
    (s.sink = [] → dec t = DecodeResult.ok →
      handle_queue_track_next dec t s = none) := by
  refine ⟨?_, ?_, ?_, ?_⟩
  · intro hdec
    rw [play_track_ok _ hdec]
    rfl
  · intro hne hpos
    unfold handle_queue_track_next
    dsimp only
    rw [if_pos (by omega)]
    rw [if_neg (by simpa [List.isEmpty_iff] using hne)]
    rfl
  · intro hsink hdec hpos
    unfold handle_queue_track_next
    dsimp only
    rw [if_pos (by omega)]
    rw [if_pos (by simp [hsink])]
    simp [play_track_holding_offset, hdec]
  · intro hsink hdec
    unfold handle_queue_track_next
    dsimp only
    by_cases hpos : s.queue_index + (s.insertion_offset + 1) ≤ s.queue.length
    · rw [if_pos hpos]
      rw [if_pos (by simp [hsink])]
      simp [play_track_holding_offset, hdec]
    · rw [if_neg hpos]

/-- Witness for C7: a reset through a normal `play_track` start, an
increment while a track is playing, an increment from an empty-sink
queue-next of an undecodable file, and the never-completing empty-sink
queue-next of a decodable file. -/
theorem insertion_offset_reset_rule_witness :
    (allOk trC = DecodeResult.ok ∧ scenarioAB.sink ≠ [] ∧
      scenarioAB.queue_index + scenarioAB.insertion_offset + 1 ≤
        scenarioAB.queue.length ∧
      idleOneTrack.sink = [] ∧ decAbad trA = DecodeResult.unplayable) ∧
    (play_track allOk trC idleTwoOffsetOne).map
        PlaybackState.insertion_offset = some 0 ∧
    (handle_queue_track_next allOk trX scenarioAB).map
        PlaybackState.insertion_offset =
      some (scenarioAB.insertion_offset + 1) ∧
    (handle_queue_track_next decAbad trA idleOneTrack).map
        PlaybackState.insertion_offset =
      some (idleOneTrack.insertion_offset + 1) ∧
    handle_queue_track_next allOk trB idleOneTrack = none := by
  refine ⟨⟨rfl, by decide, by decide, rfl, by decide⟩, ?_, ?_, ?_, ?_⟩
  · exact (insertion_offset_reset_rule allOk trC idleTwoOffsetOne).1 rfl
  · exact (insertion_offset_reset_rule allOk trX scenarioAB).2.1
      (by decide) (by decide)
  · exact (insertion_offset_reset_rule decAbad trA idleOneTrack).2.2.1
      rfl (by decide) (by decide)
  · exact (insertion_offset_reset_rule allOk trB idleOneTrack).2.2.2 rfl rfl

/-- C9 counterexample: with a one-item work quantum and two pending
items, the second poll extends the result list, so two sequential polls
with no intervening query change do not yield identical results. -/
theorem poll_not_idempotent_counterexample :
    search_results (poll matchAll 1 searchTwoPending) = [trA] ∧
    search_results (poll matchAll 1 (poll matchAll 1 searchTwoPending)) =
      [trA, trB] ∧
    search_results (poll matchAll 1 (poll matchAll 1 searchTwoPending)) ≠
      search_results (poll matchAll 1 searchTwoPending) := by decide

/-- C9 (amended): once a single poll can exhaust the pending matching
work (the incremental computation converges), a second poll leaves the
result list unchanged; while work remains, a later poll may extend it. -/
theorem poll_idempotent_after_convergence (m : String → Track → Bool)
    (q : Nat) (e : SearchState) (h : e.pending.length ≤ q) :
    search_results (poll m q (poll m q e)) = search_results (poll m q e) := by
  unfold poll search_results
  dsimp only
  rw [List.drop_eq_nil_of_le h]
  simp

/-- Witness for C9 with a quantum large enough for both pending items. -/
theorem poll_idempotent_after_convergence_witness :
    searchTwoPending.pending.length ≤ 2 ∧
    search_results (poll matchAll 2 (poll matchAll 2 searchTwoPending)) =
      search_results (poll matchAll 2 searchTwoPending) :=
  ⟨by decide,
    poll_idempotent_after_convergence matchAll 2 searchTwoPending (by decide)⟩

/-- C10: while a track is playing (non-empty sink), enqueuing appends
exactly one entry at the end of the queue and changes nothing else —
cursor, insertion offset, repeat mode, sink and all pre-existing
entries are exactly as before. -/
theorem enqueue_while_playing_frame (dec : Track → DecodeResult)
    (t : Track) (s : PlaybackState) (h : s.sink ≠ []) :
    handle_queue_track dec t s = some { s with queue := s.queue ++ [t] } := by
  unfold handle_queue_track queue_track
  dsimp only
  rw [if_neg (by simpa [List.isEmpty_iff] using h)]

/-- Witness for C10 on a one-track queue with its track playing. -/
theorem enqueue_while_playing_frame_witness :
    oneTrackPlaying.sink ≠ [] ∧
    handle_queue_track allOk trB oneTrackPlaying =
      some { oneTrackPlaying with queue := oneTrackPlaying.queue ++ [trB] } :=
  ⟨by decide, enqueue_while_playing_frame allOk trB oneTrackPlaying (by decide)⟩

end Minim
